import Mathlib

/-!
Verification of the task runner and resumable progress model of the m3fs
repository (`pkg/task/progress.go` and the runner in the same package).

The Go code is shallowly embedded:
* `time.Time` values are modelled as abstract `Nat` ticks; every call of
  `time.Now()` inside the runner advances a logical clock by one.
* The JSON encoding produced by `encoding/json` is modelled by a small
  `Json` value tree; `json.MarshalIndent` / `json.Unmarshal` become
  `encodeDeploymentProgress` / `decodeDeploymentProgress`.
* The file system is a finite map from paths to `Json` values; a path that
  is absent models `os.IsNotExist`, a present value that fails to decode
  models a malformed file.
* Go maps are modelled as association lists whose `ainsert` overwrites the
  (first) binding of an existing key, matching map update.
* `float64` arithmetic in `DisplayProgress` is modelled exactly: every Go
  floating operation rounds its exact rational result to 53 bits of
  precision with round-to-nearest, ties-to-even (IEEE-754 binary64 in the
  normal range, which contains all values reached here).
-/

/-- Models `ProgressInfo` of progress.go (per-task progress record). -/
structure ProgressInfo where
  taskID : String
  name : String
  completed : Bool
  totalSteps : Int
  completedSteps : Int
  startTime : Nat
  endTime : Nat
deriving DecidableEq, Repr

/-- Models `DeploymentProgress` of progress.go (aggregate durable state). -/
structure DeploymentProgress where
  startTime : Nat
  endTime : Nat
  totalTasks : Int
  completedTasks : Int
  currentTask : String
  taskProgress : List (String × ProgressInfo)
deriving DecidableEq, Repr

/-- Association-list lookup, modelling Go map indexing `m[k]`. -/
def alookup {α : Type} (k : String) : List (String × α) → Option α
  | [] => none
  | (k1, v) :: rest => if k1 = k then some v else alookup k rest

/-- Association-list update, modelling Go map assignment `m[k] = v`. -/
def ainsert {α : Type} (k : String) (v : α) : List (String × α) → List (String × α)
  | [] => [(k, v)]
  | (k1, v1) :: rest => if k1 = k then (k, v) :: rest else (k1, v1) :: ainsert k v rest

/-- Models `NewDeploymentProgress`: start time is `now`, everything else is
the Go zero value (`0`, empty string, empty map). -/
def NewDeploymentProgress (now : Nat) : DeploymentProgress :=
  { startTime := now, endTime := 0, totalTasks := 0, completedTasks := 0,
    currentTask := "", taskProgress := [] }

/-- Value tree modelling the JSON documents written by `encoding/json`. -/
inductive Json where
  | jnull : Json
  | jstr : String → Json
  | jnum : Int → Json
  | jbool : Bool → Json
  | jobj : List (String × Json) → Json

/-- Field access in a JSON object. -/
def Json.getField (j : Json) (k : String) : Option Json :=
  match j with
  | .jobj fields => alookup k fields
  | _ => none

/-- Reads a JSON string. -/
def Json.asStr : Json → Option String
  | .jstr s => some s
  | _ => none

/-- Reads a JSON number as an integer. -/
def Json.asNum : Json → Option Int
  | .jnum n => some n
  | _ => none

/-- Reads a JSON boolean. -/
def Json.asBool : Json → Option Bool
  | .jbool b => some b
  | _ => none

/-- Reads a JSON number as a (nonnegative) time tick. -/
def Json.asTick : Json → Option Nat
  | .jnum (Int.ofNat n) => some n
  | _ => none

/-- Serialization of one `ProgressInfo`, with the field names of the Go
struct tags. -/
def encodeProgressInfo (p : ProgressInfo) : Json :=
  .jobj [("taskId", .jstr p.taskID), ("name", .jstr p.name),
         ("completed", .jbool p.completed), ("totalSteps", .jnum p.totalSteps),
         ("completedSteps", .jnum p.completedSteps),
         ("startTime", .jnum p.startTime), ("endTime", .jnum p.endTime)]

/-- Parsing of one `ProgressInfo`. -/
def decodeProgressInfo (j : Json) : Option ProgressInfo := do
  let f1 ← j.getField "taskId"
  let taskID ← f1.asStr
  let f2 ← j.getField "name"
  let nm ← f2.asStr
  let f3 ← j.getField "completed"
  let completed ← f3.asBool
  let f4 ← j.getField "totalSteps"
  let totalSteps ← f4.asNum
  let f5 ← j.getField "completedSteps"
  let completedSteps ← f5.asNum
  let f6 ← j.getField "startTime"
  let startTime ← f6.asTick
  let f7 ← j.getField "endTime"
  let endTime ← f7.asTick
  pure { taskID := taskID, name := nm, completed := completed,
         totalSteps := totalSteps, completedSteps := completedSteps,
         startTime := startTime, endTime := endTime }

/-- Serialization of the task map. -/
def encodeTaskProgress (m : List (String × ProgressInfo)) : List (String × Json) :=
  m.map (fun kv => (kv.1, encodeProgressInfo kv.2))

/-- Parsing of the task map. -/
def decodeTaskProgress : List (String × Json) → Option (List (String × ProgressInfo))
  | [] => some []
  | (k, v) :: rest => do
    let p ← decodeProgressInfo v
    let restD ← decodeTaskProgress rest
    pure ((k, p) :: restD)

/-- Serialization of a `DeploymentProgress`, as `json.MarshalIndent` does. -/
def encodeDeploymentProgress (dp : DeploymentProgress) : Json :=
  .jobj [("startTime", .jnum dp.startTime), ("endTime", .jnum dp.endTime),
         ("totalTasks", .jnum dp.totalTasks), ("completedTasks", .jnum dp.completedTasks),
         ("currentTask", .jstr dp.currentTask),
         ("taskProgress", .jobj (encodeTaskProgress dp.taskProgress))]

/-- Parsing of a `DeploymentProgress`, as `json.Unmarshal` does on a
well-formed progress file. -/
def decodeDeploymentProgress (j : Json) : Option DeploymentProgress := do
  let f1 ← j.getField "startTime"
  let startTime ← f1.asTick
  let f2 ← j.getField "endTime"
  let endTime ← f2.asTick
  let f3 ← j.getField "totalTasks"
  let totalTasks ← f3.asNum
  let f4 ← j.getField "completedTasks"
  let completedTasks ← f4.asNum
  let f5 ← j.getField "currentTask"
  let currentTask ← f5.asStr
  let f6 ← j.getField "taskProgress"
  match f6 with
  | .jobj fields => do
    let tp ← decodeTaskProgress fields
    pure { startTime := startTime, endTime := endTime, totalTasks := totalTasks,
           completedTasks := completedTasks, currentTask := currentTask,
           taskProgress := tp }
  | _ => none

/-- The file system: a finite map from paths to stored JSON documents. -/
abbrev FileSystem := List (String × Json)

/-- Models `DeploymentProgress.SaveProgressToFile`: writes the serialized
progress at `filePath` (parent directories are always creatable in the
model, the claim about persistence quantifies over writable paths). -/
def SaveProgressToFile (dp : DeploymentProgress) (filePath : String) (fs : FileSystem) :
    FileSystem :=
  ainsert filePath (encodeDeploymentProgress dp) fs

/-- Models `LoadProgressFromFile`: a missing file yields a fresh progress
without error, a present file is parsed and a parse failure is an error. -/
def LoadProgressFromFile (fs : FileSystem) (filePath : String) (now : Nat) :
    Except String DeploymentProgress :=
  match alookup filePath fs with
  | none => .ok (NewDeploymentProgress now)
  | some data =>
    match decodeDeploymentProgress data with
    | none => .error "unmarshal"
    | some progress => .ok progress

theorem alookup_ainsert_self {α : Type} (k : String) (v : α) (m : List (String × α)) :
    alookup k (ainsert k v m) = some v := by
  induction m with
  | nil => simp [ainsert, alookup]
  | cons hd tl ih =>
    obtain ⟨k1, v1⟩ := hd
    by_cases h : k1 = k
    · simp [ainsert, alookup, h]
    · simp [ainsert, alookup, h, ih]

theorem alookup_ainsert_ne {α : Type} {k k2 : String} (v : α) (m : List (String × α))
    (h : k ≠ k2) : alookup k2 (ainsert k v m) = alookup k2 m := by
  induction m with
  | nil => simp [ainsert, alookup, h]
  | cons hd tl ih =>
    obtain ⟨k1, v1⟩ := hd
    by_cases h1 : k1 = k
    · subst h1
      simp [ainsert, alookup, h]
    · simp [ainsert, alookup, h1, ih]

theorem decodeProgressInfo_encode (p : ProgressInfo) :
    decodeProgressInfo (encodeProgressInfo p) = some p := rfl

theorem decodeTaskProgress_encode (m : List (String × ProgressInfo)) :
    decodeTaskProgress (encodeTaskProgress m) = some m := by
  induction m with
  | nil => rfl
  | cons hd tl ih =>
    obtain ⟨k, p⟩ := hd
    show decodeTaskProgress ((k, encodeProgressInfo p) :: encodeTaskProgress tl) = _
    simp [decodeTaskProgress, decodeProgressInfo_encode, ih]

theorem decodeDeploymentProgress_encode (dp : DeploymentProgress) :
    decodeDeploymentProgress (encodeDeploymentProgress dp) = some dp := by
  simp [encodeDeploymentProgress, decodeDeploymentProgress, Json.getField,
    alookup, Json.asTick, Json.asNum, Json.asStr, decodeTaskProgress_encode]

/-- C3: saving a `DeploymentProgress` to a path and loading the same path
returns a value equal to the original in every field (round-trip law). -/
theorem c3_persist_restore_round_trip (dp : DeploymentProgress) (filePath : String)
    (fs : FileSystem) (now : Nat) :
    LoadProgressFromFile (SaveProgressToFile dp filePath fs) filePath now = .ok dp := by
  simp [LoadProgressFromFile, SaveProgressToFile, alookup_ainsert_self,
    decodeDeploymentProgress_encode]

/-- Result of `Runner.initProgressTracking`: the progress attached to the
runtime, and whether the load-failure warning was logged. -/
structure InitResult where
  progress : DeploymentProgress
  warnedLoadFailure : Bool
deriving DecidableEq, Repr

/-- Models `Runner.initProgressTracking` (path resolution aside): with
resume enabled the progress file is loaded and a load failure falls back to
a fresh progress with a warning; with resume disabled a fresh progress is
always used; `totalTasks` is then set to the number of registered tasks. -/
def initProgressTracking (resumeEnabled : Bool) (fs : FileSystem) (progressFile : String)
    (numTasks : Int) (now : Nat) : InitResult :=
  let base : InitResult :=
    if resumeEnabled then
      match LoadProgressFromFile fs progressFile now with
      | .error _ => { progress := NewDeploymentProgress now, warnedLoadFailure := true }
      | .ok p => { progress := p, warnedLoadFailure := false }
    else { progress := NewDeploymentProgress now, warnedLoadFailure := false }
  { base with progress := { base.progress with totalTasks := numTasks } }

/-- C5: runner initialization of progress tracking. A failed restore with
resume enabled degrades to a fresh progress plus a warning (never fatal);
with resume disabled a fresh progress is always created; in every case
`totalTasks` becomes the number of registered tasks. -/
theorem c5_init_progress_tracking (fs : FileSystem) (progressFile : String)
    (numTasks : Int) (now : Nat) :
    (∀ j, alookup progressFile fs = some j → decodeDeploymentProgress j = none →
      initProgressTracking true fs progressFile numTasks now =
        { progress := { NewDeploymentProgress now with totalTasks := numTasks },
          warnedLoadFailure := true }) ∧
    (initProgressTracking false fs progressFile numTasks now =
        { progress := { NewDeploymentProgress now with totalTasks := numTasks },
          warnedLoadFailure := false }) ∧
    (∀ resumeEnabled,
      (initProgressTracking resumeEnabled fs progressFile numTasks now).progress.totalTasks
        = numTasks) := by
  refine ⟨fun j hj hd => ?_, ?_, fun resumeEnabled => ?_⟩
  · simp [initProgressTracking, LoadProgressFromFile, hj, hd]
  · simp [initProgressTracking]
  · cases resumeEnabled <;> simp [initProgressTracking]

/-- Witness for C5 at a malformed one-file file system. -/
theorem c5_init_progress_tracking_witness :
    initProgressTracking true [("work/progress.json", Json.jnull)] "work/progress.json" 3 7 =
      { progress := { NewDeploymentProgress 7 with totalTasks := 3 },
        warnedLoadFailure := true } ∧
    initProgressTracking false [("work/progress.json", Json.jnull)] "work/progress.json" 3 7 =
      { progress := { NewDeploymentProgress 7 with totalTasks := 3 },
        warnedLoadFailure := false } ∧
    (initProgressTracking true [("work/progress.json", Json.jnull)] "work/progress.json" 3 7
      ).progress.totalTasks = 3 := by
  have h := c5_init_progress_tracking [("work/progress.json", Json.jnull)]
    "work/progress.json" 3 7
  exact ⟨h.1 Json.jnull rfl rfl, h.2.1, h.2.2 true⟩

/-- C6: loading from a path that does not exist returns, without error, a
fresh `DeploymentProgress` exactly as `NewDeploymentProgress` builds it:
zero totals, empty task map, start time `now`. -/
theorem c6_load_missing_file (fs : FileSystem) (filePath : String) (now : Nat)
    (h : alookup filePath fs = none) :
    LoadProgressFromFile fs filePath now = .ok (NewDeploymentProgress now) ∧
    (NewDeploymentProgress now).totalTasks = 0 ∧
    (NewDeploymentProgress now).completedTasks = 0 ∧
    (NewDeploymentProgress now).taskProgress = [] ∧
    (NewDeploymentProgress now).startTime = now := by
  refine ⟨?_, rfl, rfl, rfl, rfl⟩
  simp [LoadProgressFromFile, h]

/-- Witness for C6 on the empty file system. -/
theorem c6_load_missing_file_witness :
    LoadProgressFromFile [] "work/progress.json" 5 = .ok (NewDeploymentProgress 5) ∧
    (NewDeploymentProgress 5).totalTasks = 0 ∧
    (NewDeploymentProgress 5).completedTasks = 0 ∧
    (NewDeploymentProgress 5).taskProgress = [] ∧
    (NewDeploymentProgress 5).startTime = 5 :=
  c6_load_missing_file [] "work/progress.json" 5 rfl

/-- Values held in the runtime cache (`sync.Map` of `Runtime`); `ofOther`
stands for any stored value of a type other than the three asserted ones. -/
inductive CacheValue where
  | ofString : String → CacheValue
  | ofBool : Bool → CacheValue
  | ofInt : Int → CacheValue
  | ofOther : CacheValue
deriving DecidableEq, Repr

/-- The key/value store of `Runtime` (keys are the string constants). -/
abbrev RuntimeCache := List (String × CacheValue)

/-- Models `Runtime.Load` of the embedded `sync.Map`. -/
def RuntimeLoad (r : RuntimeCache) (key : String) : Option CacheValue :=
  alookup key r

/-- Models `Runtime.LoadString`; `none` models the panic of the unchecked
type assertion `valI.(string)` on a value of another type. -/
def LoadString (r : RuntimeCache) (key : String) : Option (String × Bool) :=
  match RuntimeLoad r key with
  | none => some ("", false)
  | some (.ofString s) => some (s, true)
  | some _ => none

/-- Models `Runtime.LoadBool`. -/
def LoadBool (r : RuntimeCache) (key : String) : Option (Bool × Bool) :=
  match RuntimeLoad r key with
  | none => some (false, false)
  | some (.ofBool b) => some (b, true)
  | some _ => none

/-- Models `Runtime.LoadInt`. -/
def LoadInt (r : RuntimeCache) (key : String) : Option (Int × Bool) :=
  match RuntimeLoad r key with
  | none => some (0, false)
  | some (.ofInt n) => some (n, true)
  | some _ => none

/-- C9: the typed accessors fail (type-assertion panic, modelled as `none`)
on a stored value of the wrong type instead of returning a value of the
asserted type, and return the zero value with `false` for an absent key. -/
theorem c9_typed_accessors (r : RuntimeCache) (key : String) :
    (RuntimeLoad r key = none →
      LoadString r key = some ("", false) ∧
      LoadBool r key = some (false, false) ∧
      LoadInt r key = some (0, false)) ∧
    (∀ v, RuntimeLoad r key = some v →
      ((∀ s, v ≠ CacheValue.ofString s) → LoadString r key = none) ∧
      ((∀ b, v ≠ CacheValue.ofBool b) → LoadBool r key = none) ∧
      ((∀ n, v ≠ CacheValue.ofInt n) → LoadInt r key = none)) := by
  constructor
  · intro h
    exact ⟨by simp [LoadString, h], by simp [LoadBool, h], by simp [LoadInt, h]⟩
  · intro v hv
    refine ⟨fun hs => ?_, fun hb => ?_, fun hn => ?_⟩
    · cases v with
      | ofString s => exact absurd rfl (hs s)
      | ofBool b => simp [LoadString, hv]
      | ofInt n => simp [LoadString, hv]
      | ofOther => simp [LoadString, hv]
    · cases v with
      | ofBool b => exact absurd rfl (hb b)
      | ofString s => simp [LoadBool, hv]
      | ofInt n => simp [LoadBool, hv]
      | ofOther => simp [LoadBool, hv]
    · cases v with
      | ofInt n => exact absurd rfl (hn n)
      | ofString s => simp [LoadInt, hv]
      | ofBool b => simp [LoadInt, hv]
      | ofOther => simp [LoadInt, hv]

/-- Witness for C9: a cache holding an int under one key, nothing else. -/
theorem c9_typed_accessors_witness :
    LoadString [("user_token", CacheValue.ofInt 42)] "user_token" = none ∧
    LoadString [("user_token", CacheValue.ofInt 42)] "artifact/path" = some ("", false) ∧
    LoadBool [("user_token", CacheValue.ofInt 42)] "artifact/path" = some (false, false) ∧
    LoadInt [("user_token", CacheValue.ofInt 42)] "artifact/path" = some (0, false) := by
  have h := c9_typed_accessors [("user_token", CacheValue.ofInt 42)] "user_token"
  have habs := c9_typed_accessors [("user_token", CacheValue.ofInt 42)] "artifact/path"
  have hmis := (h.2 (CacheValue.ofInt 42) rfl).1 (by intro s hcon; cases hcon)
  have hzero := habs.1 rfl
  exact ⟨hmis, hzero.1, hzero.2.1, hzero.2.2⟩

/-- A registered task, modelling the `Interface` implementations the runner
drives: its display name (`Name()`) and the outcome of its run operation
(`none` for success, `some cause` for the error it returns). Tasks do not
touch the progress model themselves; only the runner mutates it. -/
structure RunnerTask where
  name : String
  result : Option String
deriving DecidableEq, Repr

/-- The error `Runner.Run` returns: `errors.Annotatef(err, "run task %s",
task.Name())`, i.e. the failing task's name wrapping the task's error. -/
structure RunError where
  taskName : String
  cause : String
deriving DecidableEq, Repr

/-- Observable steps of `Runner.Run`, in program order: assignment of
`Progress.CurrentTask`, a successful `saveProgress` persistence point with
the state written to disk, and the invocation of a task's `Run`. -/
inductive RunEvent where
  | curSet : String → RunEvent
  | saved : DeploymentProgress → RunEvent
  | invoked : Nat → String → RunEvent
deriving DecidableEq, Repr

/-- State threaded through the run loop: the in-memory progress and the
logical clock advanced by each `time.Now()`. -/
structure LoopState where
  progress : DeploymentProgress
  clock : Nat
deriving DecidableEq, Repr

/-- The record written when a task starts (lines 442-446 of progress.go):
fresh `ProgressInfo` with start time now, not completed, zero steps. -/
def mkStartRecord (taskID nm : String) (now : Nat) : ProgressInfo :=
  { taskID := taskID, name := nm, completed := false, totalSteps := 0,
    completedSteps := 0, startTime := now, endTime := 0 }

/-- Go zero value of `ProgressInfo`, produced by indexing a map at a
missing key. -/
def zeroProgressInfo : ProgressInfo :=
  { taskID := "", name := "", completed := false, totalSteps := 0,
    completedSteps := 0, startTime := 0, endTime := 0 }

/-- The skip condition of `Runner.Run` (lines 419-424): resume is enabled
and a record exists for the task's ID with `Completed` true. -/
def skipCheck (resumeEnabled : Bool) (dp : DeploymentProgress) (taskID : String) : Bool :=
  resumeEnabled &&
    match alookup taskID dp.taskProgress with
    | some info => info.completed
    | none => false

/-- Persistence points produced by one `saveProgress` call: with resume
disabled `saveProgress` returns nil without writing, so nothing is
persisted. -/
def savedEvents (resumeEnabled : Bool) (dp : DeploymentProgress) : List RunEvent :=
  if resumeEnabled then [RunEvent.saved dp] else []

/-- The loop of `Runner.Run` (lines 416-478): for each task in order, check
the skip condition, set `CurrentTask`, write the start record, persist, run
the task (stopping with an annotated error on failure), mark the record
completed, increment `CompletedTasks`, persist; after the loop set the
aggregate `EndTime` and persist. `idx` is the loop index `i`. -/
def runLoop (resumeEnabled : Bool) :
    List RunnerTask → Nat → LoopState → List RunEvent × LoopState × Option RunError
  | [], _, st =>
    let pEnd := { st.progress with endTime := st.clock }
    (savedEvents resumeEnabled pEnd, ⟨pEnd, st.clock + 1⟩, none)
  | task :: rest, idx, st =>
    let taskID := task.name
    if skipCheck resumeEnabled st.progress taskID then
      runLoop resumeEnabled rest (idx + 1) st
    else
      let p1 := { st.progress with currentTask := task.name }
      let startRec := mkStartRecord taskID task.name st.clock
      let p2 := { p1 with taskProgress := ainsert taskID startRec p1.taskProgress }
      let clock1 := st.clock + 1
      let evPre := RunEvent.curSet task.name ::
        (savedEvents resumeEnabled p2 ++ [RunEvent.invoked idx task.name])
      match task.result with
      | some cause => (evPre, ⟨p2, clock1⟩, some ⟨task.name, cause⟩)
      | none =>
        let info0 := (alookup taskID p2.taskProgress).getD zeroProgressInfo
        let doneRec := { info0 with completed := true, endTime := clock1 }
        let p3 := { p2 with taskProgress := ainsert taskID doneRec p2.taskProgress,
                            completedTasks := p2.completedTasks + 1 }
        let out := runLoop resumeEnabled rest (idx + 1) ⟨p3, clock1 + 1⟩
        (evPre ++ savedEvents resumeEnabled p3 ++ out.1, out.2)

/-- Models `Runner.Run`: runs the registered tasks from loop index 0 on the
progress attached at initialization, returning the event trace, the final
state and the returned error, if any. -/
def runnerRun (resumeEnabled : Bool) (tasks : List RunnerTask)
    (dp0 : DeploymentProgress) (clock0 : Nat) :
    List RunEvent × LoopState × Option RunError :=
  runLoop resumeEnabled tasks 0 ⟨dp0, clock0⟩

/-- Number of entries of the task map whose `completed` field is true. -/
def countCompleted : List (String × ProgressInfo) → Nat
  | [] => 0
  | kv :: rest => (if kv.2.completed then 1 else 0) + countCompleted rest

/-- The invariant of C2: `completedTasks` equals the number of completed
entries of `taskProgress`. -/
abbrev progressInvariant (dp : DeploymentProgress) : Prop :=
  dp.completedTasks = (countCompleted dp.taskProgress : Int)

/-- The progress states written to disk along a trace, in order. -/
def savedStates (evs : List RunEvent) : List DeploymentProgress :=
  evs.filterMap (fun e => match e with | .saved dp => some dp | _ => none)

/-- Number of task invocations in a trace. -/
def countInvoked (evs : List RunEvent) : Nat :=
  (evs.filter (fun e => match e with | .invoked _ _ => true | _ => false)).length

theorem runLoop_completed_stable (N : String) (info : ProgressInfo)
    (hc : info.completed = true) :
    ∀ (tasks : List RunnerTask) (idx : Nat) (st : LoopState),
      alookup N st.progress.taskProgress = some info →
      alookup N (runLoop true tasks idx st).2.1.progress.taskProgress = some info ∧
      (∀ i, RunEvent.invoked i N ∉ (runLoop true tasks idx st).1) ∧
      RunEvent.curSet N ∉ (runLoop true tasks idx st).1 := by
  intro tasks
  induction tasks with
  | nil =>
    intro idx st hl
    refine ⟨hl, ?_, ?_⟩ <;> simp [runLoop, savedEvents]
  | cons task rest ih =>
    obtain ⟨nm, res⟩ := task
    intro idx st hl
    rcases hskip : skipCheck true st.progress nm with _ | _
    · have hne : nm ≠ N := by
        intro he
        rw [skipCheck] at hskip
        simp [he, hl, hc] at hskip
      cases res with
      | some cause =>
        simp only [runLoop, hskip, Bool.false_eq_true, if_false]
        refine ⟨?_, fun i => ?_, ?_⟩
        · simpa [alookup_ainsert_ne _ _ hne] using hl
        · simp [savedEvents, Ne.symm hne]
        · simp [savedEvents, Ne.symm hne]
      | none =>
        simp only [runLoop, hskip, Bool.false_eq_true, if_false]
        have hl3 : alookup N
            (ainsert nm { (alookup nm (ainsert nm (mkStartRecord nm nm st.clock)
                st.progress.taskProgress)).getD zeroProgressInfo with
                completed := true, endTime := st.clock + 1 }
              (ainsert nm (mkStartRecord nm nm st.clock) st.progress.taskProgress))
            = some info := by
          rw [alookup_ainsert_ne _ _ hne, alookup_ainsert_ne _ _ hne]
          exact hl
        have ihr := ih (idx + 1)
          ⟨{ st.progress with
              currentTask := nm,
              taskProgress := ainsert nm { (alookup nm (ainsert nm
                  (mkStartRecord nm nm st.clock) st.progress.taskProgress)).getD
                  zeroProgressInfo with completed := true, endTime := st.clock + 1 }
                (ainsert nm (mkStartRecord nm nm st.clock) st.progress.taskProgress),
              completedTasks := st.progress.completedTasks + 1 },
            st.clock + 1 + 1⟩ hl3
        refine ⟨ihr.1, fun i => ?_, ?_⟩
        · simp [savedEvents, Ne.symm hne, ihr.2.1 i]
        · simp [savedEvents, Ne.symm hne, ihr.2.2]
    · simp only [runLoop, hskip, if_true]
      exact ih (idx + 1) st hl

/-- C1: with resume enabled, a task whose progress record exists with
`completed = true` is skipped entirely during `Run`: its run operation is
never invoked, `currentTask` is never set to its name, and its record is
left untouched (the loop just moves on). -/
theorem c1_resume_skips_completed (tasks : List RunnerTask) (dp0 : DeploymentProgress)
    (clock0 : Nat) (k : Nat) (task : RunnerTask) (info : ProgressInfo)
    (htask : tasks[k]? = some task)
    (hl : alookup task.name dp0.taskProgress = some info)
    (hc : info.completed = true) :
    (∀ i, RunEvent.invoked i task.name ∉ (runnerRun true tasks dp0 clock0).1) ∧
    RunEvent.curSet task.name ∉ (runnerRun true tasks dp0 clock0).1 ∧
    alookup task.name (runnerRun true tasks dp0 clock0).2.1.progress.taskProgress
      = some info := by
  have h := runLoop_completed_stable task.name info hc tasks 0 ⟨dp0, clock0⟩ hl
  exact ⟨h.2.1, h.2.2, h.1⟩


/-- A record of task "A" already marked completed, driving the C1 witness. -/
def c1DoneRecord : ProgressInfo :=
  { taskID := "A", name := "A", completed := true, totalSteps := 0,
    completedSteps := 0, startTime := 0, endTime := 0 }

/-- Deployment progress driving the C1 witness: task "A" already done. -/
def c1Progress : DeploymentProgress :=
  { startTime := 0, endTime := 0, totalTasks := 2, completedTasks := 1,
    currentTask := "", taskProgress := [("A", c1DoneRecord)] }

/-- Witness for C1: resuming with "A" completed, "A" is untouched. -/
theorem c1_resume_skips_completed_witness :
    RunEvent.invoked 0 "A"
        ∉ (runnerRun true [⟨"A", none⟩, ⟨"B", none⟩] c1Progress 0).1 ∧
    RunEvent.curSet "A" ∉ (runnerRun true [⟨"A", none⟩, ⟨"B", none⟩] c1Progress 0).1 ∧
    alookup "A" (runnerRun true [⟨"A", none⟩, ⟨"B", none⟩] c1Progress 0
        ).2.1.progress.taskProgress = some c1DoneRecord := by
  have h := c1_resume_skips_completed [⟨"A", none⟩, ⟨"B", none⟩] c1Progress 0 0
    ⟨"A", none⟩ c1DoneRecord rfl rfl rfl
  exact ⟨h.1 0, h.2.1, h.2.2⟩

theorem runLoop_dup_name :
    ∀ (tasks : List RunnerTask) (idx : Nat) (st : LoopState) (a b : Nat)
      (Ta Tb : RunnerTask), a < b → tasks[a]? = some Ta → tasks[b]? = some Tb →
      Ta.name = Tb.name →
      RunEvent.invoked (idx + b) Tb.name ∉ (runLoop true tasks idx st).1 := by
  intro tasks
  induction tasks with
  | nil =>
    intro idx st a b Ta Tb hab ha hb hname
    simp at ha
  | cons task rest ih =>
    intro idx st a b Ta Tb hab ha hb hname
    obtain ⟨b1, rfl⟩ : ∃ b1, b = b1 + 1 := ⟨b - 1, by omega⟩
    have hbrest : rest[b1]? = some Tb := by simpa using hb
    obtain ⟨nm, res⟩ := task
    rcases hskip : skipCheck true st.progress nm with _ | _
    · -- the head task is executed
      cases a with
      | zero =>
        -- the head task is the earlier of the two equally named tasks
        have hTa : (⟨nm, res⟩ : RunnerTask) = Ta := by simpa using ha
        have hnm : nm = Tb.name := by rw [← hname, ← hTa]
        cases res with
        | some cause =>
          simp only [runLoop, hskip, Bool.false_eq_true, if_false]
          simp [savedEvents, show idx + (b1 + 1) ≠ idx by omega]
        | none =>
          simp only [runLoop, hskip, Bool.false_eq_true, if_false]
          have hstable := runLoop_completed_stable nm
            { (alookup nm (ainsert nm (mkStartRecord nm nm st.clock)
                st.progress.taskProgress)).getD zeroProgressInfo with
              completed := true, endTime := st.clock + 1 } rfl rest (idx + 1)
            ⟨{ st.progress with
                currentTask := nm,
                taskProgress := ainsert nm
                  { (alookup nm (ainsert nm (mkStartRecord nm nm st.clock)
                      st.progress.taskProgress)).getD zeroProgressInfo with
                    completed := true, endTime := st.clock + 1 }
                  (ainsert nm (mkStartRecord nm nm st.clock) st.progress.taskProgress),
                completedTasks := st.progress.completedTasks + 1 },
              st.clock + 1 + 1⟩ (alookup_ainsert_self _ _ _)
          have hnot := hstable.2.1 (idx + (b1 + 1))
          rw [show Tb.name = nm from hnm.symm]
          simp [savedEvents, hnot, show idx + (b1 + 1) ≠ idx by omega]
      | succ a1 =>
        have harest : rest[a1]? = some Ta := by simpa using ha
        cases res with
        | some cause =>
          simp only [runLoop, hskip, Bool.false_eq_true, if_false]
          simp [savedEvents, show idx + (b1 + 1) ≠ idx by omega]
        | none =>
          simp only [runLoop, hskip, Bool.false_eq_true, if_false]
          have hrec := ih (idx + 1)
            ⟨{ st.progress with
                currentTask := nm,
                taskProgress := ainsert nm
                  { (alookup nm (ainsert nm (mkStartRecord nm nm st.clock)
                      st.progress.taskProgress)).getD zeroProgressInfo with
                    completed := true, endTime := st.clock + 1 }
                  (ainsert nm (mkStartRecord nm nm st.clock) st.progress.taskProgress),
                completedTasks := st.progress.completedTasks + 1 },
              st.clock + 1 + 1⟩ a1 b1 Ta Tb (by omega) harest hbrest hname
          rw [show idx + 1 + b1 = idx + (b1 + 1) by omega] at hrec
          simp [savedEvents, hrec, show idx + (b1 + 1) ≠ idx by omega]
    · -- the head task is skipped: its record is already completed
      have hinfo : ∃ info, alookup nm st.progress.taskProgress = some info ∧
          info.completed = true := by
        rw [skipCheck] at hskip
        rcases hal : alookup nm st.progress.taskProgress with _ | info
        · rw [hal] at hskip
          simp at hskip
        · rw [hal] at hskip
          simp at hskip
          exact ⟨info, rfl, hskip⟩
      obtain ⟨info, hal, hcomp⟩ := hinfo
      simp only [runLoop, hskip, if_true]
      cases a with
      | zero =>
        have hTa : (⟨nm, res⟩ : RunnerTask) = Ta := by simpa using ha
        have hnm : nm = Tb.name := by rw [← hname, ← hTa]
        have hstable := runLoop_completed_stable nm info hcomp rest (idx + 1) st hal
        rw [show Tb.name = nm from hnm.symm]
        exact hstable.2.1 (idx + (b1 + 1))
      | succ a1 =>
        have harest : rest[a1]? = some Ta := by simpa using ha
        have hrec := ih (idx + 1) st a1 b1 Ta Tb (by omega) harest hbrest hname
        rwa [show idx + 1 + b1 = idx + (b1 + 1) by omega] at hrec

/-- C10: the progress record key is the task's display name
(`taskID := task.Name()`), so two registered tasks with equal names share a
single record: with resume enabled, once the earlier task completes (or was
already recorded complete), every later task with the same name is skipped
without its run operation ever being invoked. -/
theorem c10_shared_record_skips_later (tasks : List RunnerTask)
    (dp0 : DeploymentProgress) (clock0 : Nat) (a b : Nat) (Ta Tb : RunnerTask)
    (hab : a < b) (ha : tasks[a]? = some Ta) (hb : tasks[b]? = some Tb)
    (hname : Ta.name = Tb.name) :
    RunEvent.invoked b Tb.name ∉ (runnerRun true tasks dp0 clock0).1 := by
  have h := runLoop_dup_name tasks 0 ⟨dp0, clock0⟩ a b Ta Tb hab ha hb hname
  simpa using h

/-- Witness for C10: two tasks named "A"; the second is never invoked. -/
theorem c10_shared_record_skips_later_witness :
    RunEvent.invoked 1 "A"
      ∉ (runnerRun true [⟨"A", none⟩, ⟨"A", none⟩] (NewDeploymentProgress 0) 0).1 :=
  c10_shared_record_skips_later [⟨"A", none⟩, ⟨"A", none⟩] (NewDeploymentProgress 0) 0
    0 1 ⟨"A", none⟩ ⟨"A", none⟩ (by omega) rfl rfl rfl

theorem countCompleted_ainsert_none (k : String) (v : ProgressInfo)
    (m : List (String × ProgressInfo)) (h : alookup k m = none) :
    countCompleted (ainsert k v m)
      = countCompleted m + (if v.completed then 1 else 0) := by
  induction m with
  | nil => simp [ainsert, countCompleted]
  | cons hd tl ih =>
    obtain ⟨k1, v1⟩ := hd
    by_cases hk : k1 = k
    · rw [alookup] at h
      simp [hk] at h
    · rw [alookup] at h
      simp only [hk, if_false] at h
      simp only [ainsert, hk, if_false, countCompleted, ih h]
      omega

theorem countCompleted_ainsert_some (k : String) (v r : ProgressInfo)
    (m : List (String × ProgressInfo)) (h : alookup k m = some r) :
    countCompleted (ainsert k v m) + (if r.completed then 1 else 0)
      = countCompleted m + (if v.completed then 1 else 0) := by
  induction m with
  | nil => simp [alookup] at h
  | cons hd tl ih =>
    obtain ⟨k1, v1⟩ := hd
    by_cases hk : k1 = k
    · rw [alookup] at h
      simp only [hk, if_true] at h
      obtain rfl : v1 = r := by injection h
      simp only [ainsert, hk, if_true, countCompleted]
      omega
    · rw [alookup] at h
      simp only [hk, if_false] at h
      simp only [ainsert, hk, if_false, countCompleted]
      have := ih h
      omega

theorem runLoop_invariant :
    ∀ (tasks : List RunnerTask) (idx : Nat) (st : LoopState),
      progressInvariant st.progress →
      (∀ dp ∈ savedStates (runLoop true tasks idx st).1, progressInvariant dp) ∧
      progressInvariant (runLoop true tasks idx st).2.1.progress := by
  intro tasks
  induction tasks with
  | nil =>
    intro idx st hinv
    constructor
    · intro dp hdp
      simp [runLoop, savedEvents, savedStates] at hdp
      subst hdp
      simpa using hinv
    · simpa [runLoop] using hinv
  | cons task rest ih =>
    intro idx st hinv
    obtain ⟨nm, res⟩ := task
    rcases hskip : skipCheck true st.progress nm with _ | _
    · -- the head task is executed: its prior record is absent or not completed
      have hstart : countCompleted (ainsert nm (mkStartRecord nm nm st.clock)
          st.progress.taskProgress) = countCompleted st.progress.taskProgress := by
        rw [skipCheck] at hskip
        rcases hal : alookup nm st.progress.taskProgress with _ | r
        · rw [countCompleted_ainsert_none nm _ _ hal]
          simp [mkStartRecord]
        · rw [hal] at hskip
          simp at hskip
          have h2 := countCompleted_ainsert_some nm (mkStartRecord nm nm st.clock) r _ hal
          simpa [mkStartRecord, hskip] using h2
      have hinv2 : progressInvariant { st.progress with
          currentTask := nm,
          taskProgress := ainsert nm (mkStartRecord nm nm st.clock)
            st.progress.taskProgress } := by
        simp only [progressInvariant] at hinv ⊢
        simpa [hstart] using hinv
      cases res with
      | some cause =>
        simp only [runLoop, hskip, Bool.false_eq_true, if_false]
        constructor
        · intro dp hdp
          simp [savedStates, savedEvents] at hdp
          subst hdp
          exact hinv2
        · exact hinv2
      | none =>
        simp only [runLoop, hskip, Bool.false_eq_true, if_false]
        have hlook2 : alookup nm (ainsert nm (mkStartRecord nm nm st.clock)
            st.progress.taskProgress) = some (mkStartRecord nm nm st.clock) :=
          alookup_ainsert_self _ _ _
        have hdone : countCompleted (ainsert nm
            { (alookup nm (ainsert nm (mkStartRecord nm nm st.clock)
                st.progress.taskProgress)).getD zeroProgressInfo with
              completed := true, endTime := st.clock + 1 }
            (ainsert nm (mkStartRecord nm nm st.clock) st.progress.taskProgress))
            = countCompleted (ainsert nm (mkStartRecord nm nm st.clock)
                st.progress.taskProgress) + 1 := by
          have h2 := countCompleted_ainsert_some nm
            { (alookup nm (ainsert nm (mkStartRecord nm nm st.clock)
                st.progress.taskProgress)).getD zeroProgressInfo with
              completed := true, endTime := st.clock + 1 }
            (mkStartRecord nm nm st.clock) _ hlook2
          simpa [mkStartRecord] using h2
        have hinv3 : progressInvariant { st.progress with
            currentTask := nm,
            taskProgress := ainsert nm
              { (alookup nm (ainsert nm (mkStartRecord nm nm st.clock)
                  st.progress.taskProgress)).getD zeroProgressInfo with
                completed := true, endTime := st.clock + 1 }
              (ainsert nm (mkStartRecord nm nm st.clock) st.progress.taskProgress),
            completedTasks := st.progress.completedTasks + 1 } := by
          simp only [progressInvariant] at hinv ⊢
          simp only [hdone, hstart]
          push_cast
          omega
        have ihr := ih (idx + 1)
          ⟨{ st.progress with
              currentTask := nm,
              taskProgress := ainsert nm
                { (alookup nm (ainsert nm (mkStartRecord nm nm st.clock)
                    st.progress.taskProgress)).getD zeroProgressInfo with
                  completed := true, endTime := st.clock + 1 }
                (ainsert nm (mkStartRecord nm nm st.clock) st.progress.taskProgress),
              completedTasks := st.progress.completedTasks + 1 },
            st.clock + 1 + 1⟩ hinv3
        constructor
        · intro dp hdp
          simp [savedStates, savedEvents] at hdp
          rcases hdp with hdp | hdp | hdp
          · subst hdp
            exact hinv2
          · subst hdp
            exact hinv3
          · exact ihr.1 dp (by simpa [savedStates] using hdp)
        · exact ihr.2
    · simp only [runLoop, hskip, if_true]
      exact ih (idx + 1) st hinv

/-- A progress state violating the C2 invariant, as a parseable progress
file could contain: `completedTasks = 5` with an empty task map. -/
def c2BadProgress : DeploymentProgress :=
  { startTime := 0, endTime := 0, totalTasks := 1, completedTasks := 5,
    currentTask := "", taskProgress := [] }

/-- Counterexample for C2 as stated: running with resume enabled from a
loaded progress whose `completedTasks` does not match its task map reaches
persistence points where the invariant fails. -/
theorem c2_invariant_counterexample :
    ¬ (∀ dp ∈ savedStates (runnerRun true [⟨"A", none⟩] c2BadProgress 0).1,
        progressInvariant dp) := by
  decide

/-- C2 (amended): at every persistence point during `Run` with resume
enabled, `completedTasks` equals the number of completed entries of
`taskProgress`, provided the progress at entry to `Run` already satisfies
that invariant (as a freshly created progress does, and as any state that
`Run` itself persisted does). -/
theorem c2_invariant_at_saves (tasks : List RunnerTask) (dp0 : DeploymentProgress)
    (clock0 : Nat) (hinv : progressInvariant dp0) :
    ∀ dp ∈ savedStates (runnerRun true tasks dp0 clock0).1, progressInvariant dp :=
  (runLoop_invariant tasks 0 ⟨dp0, clock0⟩ hinv).1

/-- Witness for C2 (amended): a fresh progress satisfies the invariant and
a run of one succeeding task keeps it at every persistence point. -/
theorem c2_invariant_at_saves_witness :
    progressInvariant (NewDeploymentProgress 3) ∧
    (∀ dp ∈ savedStates (runnerRun true [⟨"A", none⟩] (NewDeploymentProgress 3) 0).1,
      progressInvariant dp) :=
  ⟨by decide, c2_invariant_at_saves [⟨"A", none⟩] (NewDeploymentProgress 3) 0 (by decide)⟩

theorem countInvoked_append (a b : List RunEvent) :
    countInvoked (a ++ b) = countInvoked a + countInvoked b := by
  simp [countInvoked, List.filter_append]

theorem countInvoked_savedEvents (re : Bool) (dp : DeploymentProgress) :
    countInvoked (savedEvents re dp) = 0 := by
  cases re <;> simp [savedEvents, countInvoked]

theorem invoked_not_mem_savedEvents (j : Nat) (nm : String) (re : Bool)
    (dp : DeploymentProgress) : RunEvent.invoked j nm ∉ savedEvents re dp := by
  cases re <;> simp [savedEvents]

theorem countInvoked_cons_curSet (nm : String) (l : List RunEvent) :
    countInvoked (RunEvent.curSet nm :: l) = countInvoked l := by
  simp [countInvoked]

theorem countInvoked_singleton_invoked (j : Nat) (nm : String) :
    countInvoked [RunEvent.invoked j nm] = 1 := by
  simp [countInvoked]

theorem runLoop_failure (resumeEnabled : Bool) :
    ∀ (tasks : List RunnerTask) (idx : Nat) (st : LoopState)
      (evs : List RunEvent) (stF : LoopState) (err : RunError),
      runLoop resumeEnabled tasks idx st = (evs, stF, some err) →
      ∃ k task, tasks[k]? = some task ∧ err.taskName = task.name ∧
        task.result = some err.cause ∧
        RunEvent.invoked (idx + k) task.name ∈ evs ∧
        (∀ j nm2, RunEvent.invoked j nm2 ∈ evs → j ≤ idx + k) ∧
        stF.progress.currentTask = task.name ∧
        (∃ r, alookup task.name stF.progress.taskProgress = some r ∧
          r.completed = false) ∧
        stF.progress.completedTasks
          = st.progress.completedTasks + (countInvoked evs : Int) - 1 := by
  intro tasks
  induction tasks with
  | nil =>
    intro idx st evs stF err h
    simp only [runLoop, Prod.mk.injEq] at h
    exact absurd h.2.2 (by simp)
  | cons task rest ih =>
    intro idx st evs stF err h
    obtain ⟨nm, res⟩ := task
    rcases hskip : skipCheck resumeEnabled st.progress nm with _ | _
    · -- the head task is executed
      cases res with
      | some cause =>
        simp only [runLoop, hskip, Bool.false_eq_true, if_false, Prod.mk.injEq] at h
        obtain ⟨hevs, hstF, herr⟩ := h
        subst hevs
        subst hstF
        obtain rfl : (⟨nm, cause⟩ : RunError) = err := by injection herr
        refine ⟨0, ⟨nm, some cause⟩, by simp, rfl, rfl, ?_, ?_, ?_, ?_, ?_⟩
        · simp
        · intro j nm2 hj
          simp only [List.mem_cons, List.mem_append, List.mem_singleton,
            List.not_mem_nil, or_false] at hj
          rcases hj with hj | hj | hj
          · simp at hj
          · exact absurd hj (invoked_not_mem_savedEvents _ _ _ _)
          · injection hj with h1 h2
            omega
        · simp
        · exact ⟨mkStartRecord nm nm st.clock, by simp [alookup_ainsert_self], rfl⟩
        · simp only [countInvoked_cons_curSet, countInvoked_append,
            countInvoked_savedEvents, countInvoked_singleton_invoked]
          simp
      | none =>
        simp only [runLoop, hskip, Bool.false_eq_true, if_false, Prod.mk.injEq] at h
        obtain ⟨hevs, hout2⟩ := h
        have hrec := ih (idx + 1)
          ⟨{ st.progress with
              currentTask := nm,
              taskProgress := ainsert nm
                { (alookup nm (ainsert nm (mkStartRecord nm nm st.clock)
                    st.progress.taskProgress)).getD zeroProgressInfo with
                  completed := true, endTime := st.clock + 1 }
                (ainsert nm (mkStartRecord nm nm st.clock) st.progress.taskProgress),
              completedTasks := st.progress.completedTasks + 1 },
            st.clock + 1 + 1⟩
          (runLoop resumeEnabled rest (idx + 1)
            ⟨{ st.progress with
                currentTask := nm,
                taskProgress := ainsert nm
                  { (alookup nm (ainsert nm (mkStartRecord nm nm st.clock)
                      st.progress.taskProgress)).getD zeroProgressInfo with
                    completed := true, endTime := st.clock + 1 }
                  (ainsert nm (mkStartRecord nm nm st.clock) st.progress.taskProgress),
                completedTasks := st.progress.completedTasks + 1 },
              st.clock + 1 + 1⟩).1 stF err (by rw [← hout2])
        obtain ⟨k, task2, htask2, hname2, hres2, hmem2, hbound2, hcur2, hrecord2, hcnt2⟩ :=
          hrec
        refine ⟨k + 1, task2, by simpa using htask2, hname2, hres2, ?_, ?_, hcur2,
          hrecord2, ?_⟩
        · subst hevs
          rw [show idx + (k + 1) = idx + 1 + k by omega]
          simp [hmem2]
        · subst hevs
          intro j nm2 hj
          simp only [List.mem_cons, List.mem_append, List.mem_singleton,
            List.not_mem_nil, or_false, or_assoc] at hj
          rcases hj with hj | hj | hj | hj | hj
          · simp at hj
          · exact absurd hj (invoked_not_mem_savedEvents _ _ _ _)
          · injection hj with h1 h2
            omega
          · exact absurd hj (invoked_not_mem_savedEvents _ _ _ _)
          · have := hbound2 j nm2 hj
            omega
        · subst hevs
          rw [hcnt2]
          simp only [countInvoked_append, countInvoked_cons_curSet,
            countInvoked_savedEvents, countInvoked_singleton_invoked]
          simp
          omega
    · -- the head task is skipped
      simp only [runLoop, hskip, if_true] at h
      obtain ⟨k, task2, htask2, hname2, hres2, hmem2, hbound2, hcur2, hrecord2, hcnt2⟩ :=
        ih (idx + 1) st evs stF err h
      refine ⟨k + 1, task2, by simpa using htask2, hname2, hres2, ?_, ?_, hcur2,
        hrecord2, hcnt2⟩
      · rw [show idx + (k + 1) = idx + 1 + k by omega]
        exact hmem2
      · intro j nm2 hj
        have := hbound2 j nm2 hj
        omega

/-- C4: if a task fails during `Run`, the runner returns immediately with
an error naming that task and wrapping the underlying cause; no later task
in registration order is started, the failing task's record stays
uncompleted, `completedTasks` is not incremented for it (it grew only by
the earlier successful invocations), and `currentTask` remains the failing
task's name. -/
theorem c4_failure_stops_run (resumeEnabled : Bool) (tasks : List RunnerTask)
    (dp0 : DeploymentProgress) (clock0 : Nat) (err : RunError)
    (h : (runnerRun resumeEnabled tasks dp0 clock0).2.2 = some err) :
    ∃ k task, tasks[k]? = some task ∧ err.taskName = task.name ∧
      task.result = some err.cause ∧
      RunEvent.invoked k task.name ∈ (runnerRun resumeEnabled tasks dp0 clock0).1 ∧
      (∀ j nm2, RunEvent.invoked j nm2 ∈ (runnerRun resumeEnabled tasks dp0 clock0).1 →
        j ≤ k) ∧
      (runnerRun resumeEnabled tasks dp0 clock0).2.1.progress.currentTask = task.name ∧
      (∃ r, alookup task.name
          (runnerRun resumeEnabled tasks dp0 clock0).2.1.progress.taskProgress
          = some r ∧ r.completed = false) ∧
      (runnerRun resumeEnabled tasks dp0 clock0).2.1.progress.completedTasks
        = dp0.completedTasks
          + (countInvoked (runnerRun resumeEnabled tasks dp0 clock0).1 : Int) - 1 := by
  have h2 : runLoop resumeEnabled tasks 0 ⟨dp0, clock0⟩ =
      ((runnerRun resumeEnabled tasks dp0 clock0).1,
        (runnerRun resumeEnabled tasks dp0 clock0).2.1, some err) := by
    rw [← h]
    rfl
  obtain ⟨k, task, h1, hname, hres, hmem, hbound, hcur, hrecord, hcnt⟩ :=
    runLoop_failure resumeEnabled tasks 0 ⟨dp0, clock0⟩ _ _ err h2
  refine ⟨k, task, h1, hname, hres, by simpa using hmem, ?_, hcur, hrecord, hcnt⟩
  intro j nm2 hj
  have := hbound j nm2 hj
  omega

/-- Tasks driving the C4 witness: "A" fails with "boom", "B" would follow. -/
def c4Tasks : List RunnerTask := [⟨"A", some "boom"⟩, ⟨"B", none⟩]

/-- Witness for C4: a concrete failing run of two registered tasks. -/
theorem c4_failure_stops_run_witness :
    ∃ k task, c4Tasks[k]? = some task ∧
      (RunError.mk "A" "boom").taskName = task.name ∧
      task.result = some (RunError.mk "A" "boom").cause ∧
      RunEvent.invoked k task.name
        ∈ (runnerRun false c4Tasks (NewDeploymentProgress 0) 0).1 ∧
      (∀ j nm2, RunEvent.invoked j nm2
          ∈ (runnerRun false c4Tasks (NewDeploymentProgress 0) 0).1 → j ≤ k) ∧
      (runnerRun false c4Tasks (NewDeploymentProgress 0) 0
        ).2.1.progress.currentTask = task.name ∧
      (∃ r, alookup task.name (runnerRun false c4Tasks (NewDeploymentProgress 0) 0
          ).2.1.progress.taskProgress = some r ∧ r.completed = false) ∧
      (runnerRun false c4Tasks (NewDeploymentProgress 0) 0
          ).2.1.progress.completedTasks
        = (NewDeploymentProgress 0).completedTasks
          + (countInvoked (runnerRun false c4Tasks (NewDeploymentProgress 0) 0).1 : Int)
          - 1 :=
  c4_failure_stops_run false c4Tasks (NewDeploymentProgress 0) 0 ⟨"A", "boom"⟩ (by decide)


/-- A nonnegative rational as an unreduced fraction with positive
denominator: the exact value of a float64 quantity in `DisplayProgress`
(every value reached there is nonnegative under the claims' domain
`0 ≤ taskIndex`). -/
structure PosFrac where
  num : Nat
  den : Nat
deriving DecidableEq, Repr

/-- The rational value of a fraction. -/
def PosFrac.toRat (x : PosFrac) : ℚ := (x.num : ℚ) / (x.den : ℚ)

/-- Rounds the ratio `u / v` (with `v > 0`) to the nearest integer, ties to
even. -/
def roundHalfEven (u v : Nat) : Nat :=
  let q := u / v
  let r := u % v
  if 2 * r < v then q
  else if v < 2 * r then q + 1
  else if q % 2 = 0 then q else q + 1

/-- Base-2 logarithm by fuelled halving (equals `Nat.log2` and reduces well
in the kernel). -/
def log2fuel : Nat → Nat → Nat
  | 0, _ => 0
  | fuel + 1, n => if 2 ≤ n then log2fuel fuel (n / 2) + 1 else 0

/-- Floor of the base-2 logarithm. -/
def nlog2 (n : Nat) : Nat := log2fuel n n

/-- Decides `2 ^ e ≤ a / b` (`b > 0`) by cross multiplication. -/
def le2pow (e : Int) (a b : Nat) : Bool :=
  if 0 ≤ e then b * 2 ^ e.toNat ≤ a else b ≤ a * 2 ^ (-e).toNat

/-- For positive `a / b`, the exponent `e` with `2 ^ e ≤ a / b < 2 ^ (e+1)`. -/
def ilog2N (a b : Nat) : Int :=
  let c : Int := (nlog2 a : Int) - (nlog2 b : Int)
  if le2pow (c + 1) a b then c + 1
  else if le2pow c a b then c
  else c - 1

/-- Rounds the positive value `a / b` to 53 significant bits, round to
nearest with ties to even — the IEEE-754 binary64 rounding Go applies to
every float64 operation result (normal range, which contains every value
reached here). -/
def roundFloatPosN (a b : Nat) : PosFrac :=
  let e := ilog2N a b
  let m :=
    if 0 ≤ 52 - e then roundHalfEven (a * 2 ^ (52 - e).toNat) b
    else roundHalfEven a (b * 2 ^ (e - 52).toNat)
  if 0 ≤ e - 52 then ⟨m * 2 ^ (e - 52).toNat, 1⟩
  else ⟨m, 2 ^ (52 - e).toNat⟩

/-- One float64 rounding; zero is exact. -/
def roundFloatN (a b : Nat) : PosFrac :=
  if a = 0 then ⟨0, 1⟩ else roundFloatPosN a b

/-- A Go float64 multiplication: exact product, then rounding. -/
def floatMulN (x y : PosFrac) : PosFrac :=
  roundFloatN (x.num * y.num) (x.den * y.den)

/-- A Go float64 division: exact quotient, then rounding. -/
def floatDivN (x y : PosFrac) : PosFrac :=
  roundFloatN (x.num * y.den) (x.den * y.num)

/-- The Go conversion `float64(n)` of a nonnegative integer. -/
def natToFloat (n : Nat) : PosFrac := roundFloatN n 1

/-- The percentage `DisplayProgress` computes:
`float64(taskIndex) / float64(dp.TotalTasks) * 100` in float64 arithmetic,
and 0 unless `TotalTasks > 0`. -/
def progressPercentage (totalTasks taskIndex : Nat) : PosFrac :=
  if 0 < totalTasks then
    floatMulN (floatDivN (natToFloat taskIndex) (natToFloat totalTasks)) ⟨100, 1⟩
  else ⟨0, 1⟩

/-- The bar fill width of `DisplayProgress`:
`completedWidth := int(float64(width) * percentage / 100)` with width 30
(`int()` truncates, which on these nonnegative values is the floor,
`num / den` here). -/
def barCompletedWidth (percentage : PosFrac) : Nat :=
  let w := floatDivN (floatMulN ⟨30, 1⟩ percentage) ⟨100, 1⟩
  w.num / w.den

/-- One iteration of the bar-building loop of `DisplayProgress`: cell `i`
is `=` below the fill width, `>` right at it while room remains, else a
space. -/
def barCell (completedWidth : Nat) (i : Nat) : Char :=
  if i < completedWidth then '='
  else if i = completedWidth ∧ completedWidth < 30 then '>'
  else ' '

/-- The 30 cells between the brackets of the progress bar, in loop order. -/
def buildBar (completedWidth : Nat) : List Char :=
  (List.range 30).map (barCell completedWidth)

/-- Counterexample for C7 as stated: at `taskIndex = 1`, `totalTasks = 3`
the float64 computation renders percentage `4691249611844266 / 2^47`,
which differs from the exact `1/3 * 100`, and yields fill width 9, while
the exact `floor(30 * percentage / 100)` with `percentage = 1/3 * 100` is
10. -/
theorem c7_bar_width_counterexample :
    barCompletedWidth (progressPercentage 3 1) = 9 ∧
    (progressPercentage 3 1).toRat ≠ (1 : ℚ) / 3 * 100 ∧
    ⌊(30 : ℚ) * ((1 : ℚ) / 3 * 100) / 100⌋ = 10 ∧ (9 : Nat) ≠ 10 := by
  have hval : progressPercentage 3 1 = ⟨4691249611844266, 140737488355328⟩ := by
    set_option maxRecDepth 4000 in decide
  refine ⟨?_, ?_, by norm_num, by decide⟩
  · set_option maxRecDepth 4000 in decide
  · rw [hval, PosFrac.toRat]
    norm_num

theorem buildBar_eq : ∀ n : Nat, n < 30 →
    buildBar n = List.replicate n '=' ++ '>' :: List.replicate (29 - n) ' ' := by
  decide

/-- C7 (amended): the percentage and the bar width are computed in
`float64` arithmetic, so the fill width is the truncation of the floating
evaluation of `30 * percentage / 100`, which can fall one cell short of
the exact `floor(30 * taskIndex / totalTasks)` (9 instead of 10 at task 1
of 3); the structural part holds: whenever the computed width `w` is below
30, the bar is `w` filled cells, then exactly one `>` transition marker,
then blanks up to the fixed width 30; and the percentage is 0 when
`totalTasks` is 0. -/
theorem c7_bar_amended :
    (∀ w : Nat, w < 30 →
      buildBar w = List.replicate w '=' ++ '>' :: List.replicate (29 - w) ' ') ∧
    (∀ taskIndex : Nat, progressPercentage 0 taskIndex = ⟨0, 1⟩) ∧
    barCompletedWidth (progressPercentage 3 1) = 9 := by
  refine ⟨buildBar_eq, fun taskIndex => by simp [progressPercentage], ?_⟩
  set_option maxRecDepth 4000 in decide

/-- Witness for C7 (amended) at width 9 and the concrete inputs of the
counterexample. -/
theorem c7_bar_amended_witness :
    buildBar 9 = List.replicate 9 '=' ++ '>' :: List.replicate 20 ' ' ∧
    progressPercentage 0 5 = ⟨0, 1⟩ ∧
    barCompletedWidth (progressPercentage 3 1) = 9 := by
  have h := c7_bar_amended
  exact ⟨h.1 9 (by omega), h.2.1 5, h.2.2⟩

/-- Models Go `strings.Join(elems, sep)`. -/
def stringsJoin (elems : List String) (sep : String) : String :=
  match elems with
  | [] => ""
  | x :: rest => rest.foldl (fun acc y => acc ++ sep ++ y) x

/-- Models `formatDuration` on a nonnegative elapsed duration of whole
seconds: `hours := int(d.Hours())`, `minutes := int(d.Minutes()) % 60`,
`seconds := int(d.Seconds()) % 60`; a part is appended only when positive,
except that the seconds part is also appended when no part was collected;
the parts are joined with single spaces. -/
def formatDuration (totalSeconds : Nat) : String :=
  let hours := totalSeconds / 3600
  let minutes := totalSeconds / 60 % 60
  let seconds := totalSeconds % 60
  let parts : List String := []
  let parts := if 0 < hours then parts ++ [toString hours ++ " hours"] else parts
  let parts := if 0 < minutes then parts ++ [toString minutes ++ " minutes"] else parts
  let parts :=
    if 0 < seconds ∨ parts = [] then parts ++ [toString seconds ++ " seconds"] else parts
  stringsJoin parts " "

/-- Counterexample for C8 as stated: one hour, zero minutes and thirty
seconds renders without the minutes unit, although minutes is a
zero-valued non-leading unit the claim says is shown. -/
theorem c8_duration_counterexample :
    formatDuration 3630 = "1 hours 30 seconds" ∧
    formatDuration 3630 ≠ "1 hours 0 minutes 30 seconds" := by
  constructor
  · rfl
  · decide

/-- The unit selection `formatDuration` actually performs, stated case by
case: a unit is omitted whenever its value is zero, wherever it occurs,
except that the seconds unit is also printed when hours and minutes are
both zero. -/
def formatDurationSpec (totalSeconds : Nat) : String :=
  let h := totalSeconds / 3600
  let m := totalSeconds / 60 % 60
  let s := totalSeconds % 60
  stringsJoin
    ((if h = 0 then [] else [toString h ++ " hours"]) ++
     (if m = 0 then [] else [toString m ++ " minutes"]) ++
     (if s ≠ 0 ∨ (h = 0 ∧ m = 0) then [toString s ++ " seconds"] else [])) " "

/-- C8 (amended): the duration string contains exactly the nonzero units
(hours, then minutes, then seconds), each zero-valued unit being omitted
wherever it occurs — not only in leading position — with the seconds unit
always shown when hours and minutes are both zero; in particular 1 hour,
0 minutes, 30 seconds renders as "1 hours 30 seconds". -/
theorem c8_duration_amended :
    (∀ t : Nat, formatDuration t = formatDurationSpec t) ∧
    formatDuration 3630 = "1 hours 30 seconds" := by
  refine ⟨fun t => ?_, rfl⟩
  unfold formatDuration formatDurationSpec
  by_cases h0 : t / 3600 = 0 <;> by_cases m0 : t / 60 % 60 = 0 <;>
    by_cases s0 : t % 60 = 0 <;>
      simp [h0, m0, s0, Nat.pos_iff_ne_zero, stringsJoin]
